import Mathlib

/-!
Verification development for the DNS response cache of
`src/email-infrastructure/dns/cache-manager.py` (class `DNSCacheManager`
and dataclass `CacheEntry`).

The Python module is shallowly embedded: the in-process dict
`self.memory_cache` becomes an insertion-ordered association list,
`datetime` timestamps become integers (seconds), Python exceptions become
the `Except String` monad with `tryCatch` wherever the source has
`try/except`, and the optional Redis client becomes a record of possibly
failing functions supplied by the environment.  Cache keys are the real
MD5 hex digests the source computes (`hashlib.md5(...).hexdigest()`),
via an executable MD5 implementation below, because the hashing is
semantically relevant to domain invalidation.
-/

namespace DnsCache

/-! ## Python string primitives used by the module -/

/-- Scan for `n` as a contiguous sub-list of the second argument. -/
def subScan (n : List Char) : List Char → Bool
  | [] => n.isEmpty
  | c :: t => n.isPrefixOf (c :: t) || subScan n t

/-- Python `in` on strings: contiguous-substring test. -/
def pyIn (needle haystack : String) : Bool :=
  subScan needle.data haystack.data

/-- ASCII case-folding for one character, as `str.lower` acts on ASCII. -/
def pyLowerChar (c : Char) : Char :=
  if 65 ≤ c.toNat ∧ c.toNat ≤ 90 then Char.ofNat (c.toNat + 32) else c

/-- ASCII case-raising for one character, as `str.upper` acts on ASCII. -/
def pyUpperChar (c : Char) : Char :=
  if 97 ≤ c.toNat ∧ c.toNat ≤ 122 then Char.ofNat (c.toNat - 32) else c

/-- Python `str.lower` (ASCII fragment, which covers DNS names). -/
def pyLower (s : String) : String := ⟨s.data.map pyLowerChar⟩

/-- Python `str.upper` (ASCII fragment, which covers DNS record types). -/
def pyUpper (s : String) : String := ⟨s.data.map pyUpperChar⟩

/-! ## MD5 (RFC 1321), executable, over byte lists

`_generate_cache_key` feeds `key_string.encode()` (UTF-8 bytes) to
`hashlib.md5` and takes `hexdigest()`. -/

/-- UTF-8 encoding of one code point. -/
def utf8Bytes (c : Char) : List Nat :=
  let n := c.toNat
  if n < 128 then [n]
  else if n < 2048 then [192 + n / 64, 128 + n % 64]
  else if n < 65536 then [224 + n / 4096, 128 + n / 64 % 64, 128 + n % 64]
  else [240 + n / 262144, 128 + n / 4096 % 64, 128 + n / 64 % 64, 128 + n % 64]

/-- UTF-8 encoding of a string (`str.encode()`). -/
def strBytes (s : String) : List Nat := (s.data.map utf8Bytes).flatten

def add32 (a b : Nat) : Nat := (a + b) % 4294967296

def not32 (a : Nat) : Nat := 4294967295 - a

/-- Left rotation of a 32-bit word. -/
def rotl32 (x c : Nat) : Nat :=
  (x * 2 ^ c + x / 2 ^ (32 - c)) % 4294967296

/-- The 64 MD5 sine-derived constants (RFC 1321). -/
def md5K : List Nat :=
  [0xd76aa478, 0xe8c7b756, 0x242070db, 0xc1bdceee,
   0xf57c0faf, 0x4787c62a, 0xa8304613, 0xfd469501,
   0x698098d8, 0x8b44f7af, 0xffff5bb1, 0x895cd7be,
   0x6b901122, 0xfd987193, 0xa679438e, 0x49b40821,
   0xf61e2562, 0xc040b340, 0x265e5a51, 0xe9b6c7aa,
   0xd62f105d, 0x02441453, 0xd8a1e681, 0xe7d3fbc8,
   0x21e1cde6, 0xc33707d6, 0xf4d50d87, 0x455a14ed,
   0xa9e3e905, 0xfcefa3f8, 0x676f02d9, 0x8d2a4c8a,
   0xfffa3942, 0x8771f681, 0x6d9d6122, 0xfde5380c,
   0xa4beea44, 0x4bdecfa9, 0xf6bb4b60, 0xbebfbc70,
   0x289b7ec6, 0xeaa127fa, 0xd4ef3085, 0x04881d05,
   0xd9d4d039, 0xe6db99e5, 0x1fa27cf8, 0xc4ac5665,
   0xf4292244, 0x432aff97, 0xab9423a7, 0xfc93a039,
   0x655b59c3, 0x8f0ccc92, 0xffeff47d, 0x85845dd1,
   0x6fa87e4f, 0xfe2ce6e0, 0xa3014314, 0x4e0811a1,
   0xf7537e82, 0xbd3af235, 0x2ad7d2bb, 0xeb86d391]

/-- The per-round left-rotation amounts (RFC 1321). -/
def md5S : List Nat :=
  [7, 12, 17, 22, 7, 12, 17, 22, 7, 12, 17, 22, 7, 12, 17, 22,
   5, 9, 14, 20, 5, 9, 14, 20, 5, 9, 14, 20, 5, 9, 14, 20,
   4, 11, 16, 23, 4, 11, 16, 23, 4, 11, 16, 23, 4, 11, 16, 23,
   6, 10, 15, 21, 6, 10, 15, 21, 6, 10, 15, 21, 6, 10, 15, 21]

/-- One of the 64 MD5 steps on state `(a, b, c, d)`, message words `m`. -/
def md5Step (m : List Nat) (st : Nat × Nat × Nat × Nat) (i : Nat) :
    Nat × Nat × Nat × Nat :=
  let (a, b, c, d) := st
  let f :=
    if i < 16 then Nat.lor (Nat.land b c) (Nat.land (not32 b) d)
    else if i < 32 then Nat.lor (Nat.land d b) (Nat.land (not32 d) c)
    else if i < 48 then Nat.xor b (Nat.xor c d)
    else Nat.xor c (Nat.lor b (not32 d))
  let g :=
    if i < 16 then i
    else if i < 32 then (5 * i + 1) % 16
    else if i < 48 then (3 * i + 5) % 16
    else 7 * i % 16
  let tmp := add32 (add32 (add32 a f) (md5K.getD i 0)) (m.getD g 0)
  (d, add32 b (rotl32 tmp (md5S.getD i 0)), b, c)

/-- Read a 64-byte chunk as 16 little-endian 32-bit words. -/
def chunkWords (chunk : List Nat) : List Nat :=
  (List.range 16).map fun j =>
    chunk.getD (4 * j) 0 + 256 * chunk.getD (4 * j + 1) 0 +
      65536 * chunk.getD (4 * j + 2) 0 + 16777216 * chunk.getD (4 * j + 3) 0

/-- Process one 64-byte chunk into the running state. -/
def md5Chunk (st : Nat × Nat × Nat × Nat) (chunk : List Nat) :
    Nat × Nat × Nat × Nat :=
  let (a0, b0, c0, d0) := st
  let (a, b, c, d) := (List.range 64).foldl (md5Step (chunkWords chunk)) st
  (add32 a0 a, add32 b0 b, add32 c0 c, add32 d0 d)

/-- MD5 padding: `0x80`, zeros to 56 mod 64, then the 64-bit LE bit length. -/
def md5Pad (msg : List Nat) : List Nat :=
  let bitLen := 8 * msg.length % 2 ^ 64
  let zeros := (55 + 64 - msg.length % 64) % 64
  msg ++ 128 :: List.replicate zeros 0 ++
    (List.range 8).map fun j => bitLen / 2 ^ (8 * j) % 256

/-- Split a byte list into 64-byte chunks (structural recursion on a
fuel argument, so it evaluates inside the kernel; each step consumes at
least one byte, so `l.length` fuel always suffices). -/
def toChunksF : Nat → List Nat → List (List Nat)
  | _, [] => []
  | 0, l => [l]
  | fuel + 1, x :: xs => ((x :: xs).take 64) :: toChunksF fuel ((x :: xs).drop 64)

def toChunks (l : List Nat) : List (List Nat) := toChunksF l.length l

/-- Little-endian bytes of a 32-bit word. -/
def word32Bytes (w : Nat) : List Nat :=
  [w % 256, w / 256 % 256, w / 65536 % 256, w / 16777216 % 256]

def hexDigit (n : Nat) : Char := "0123456789abcdef".data.getD n '0'

/-- Two lowercase hex digits of a byte. -/
def hexByte (b : Nat) : List Char := [hexDigit (b / 16), hexDigit (b % 16)]

/-- The digest `hashlib.md5(bytes).hexdigest()`. -/
def md5HexOfBytes (msg : List Nat) : String :=
  let (a, b, c, d) :=
    (toChunks (md5Pad msg)).foldl md5Chunk
      (0x67452301, 0xefcdab89, 0x98badcfe, 0x10325476)
  ⟨(([a, b, c, d].map word32Bytes).flatten.map hexByte).flatten⟩

/-- The digest `hashlib.md5(s.encode()).hexdigest()`. -/
def md5Hex (s : String) : String := md5HexOfBytes (strBytes s)

/-! ## Data model: cached values, entries, configuration, state -/

/-- Cached payloads (`value: Any` in the source): the shapes the module
actually distinguishes are `str`, `list` (of record strings) and
anything else (`isinstance(entry.value, (str, list))`). -/
inductive Value where
  | vstr (s : String)
  | vlist (l : List String)
  | vnone
deriving DecidableEq

/-- The test `isinstance(v, (str, list))`. -/
def Value.isStrOrList : Value → Bool
  | .vstr _ => true
  | .vlist _ => true
  | .vnone => false

/-- Python `str(v)` for the shapes above (a list prints its elements
with single-quote repr, comma-space separated, in brackets). -/
def Value.pyStr : Value → String
  | .vstr s => s
  | .vlist l =>
      "[" ++ String.intercalate ", " (l.map fun s => "'" ++ s ++ "'") ++ "]"
  | .vnone => "None"

/-- Dataclass `CacheEntry`; `datetime` timestamps become integer seconds. -/
structure CacheEntry where
  key : String
  value : Value
  created_at : Int
  expires_at : Int
  access_count : Nat := 0
  last_accessed : Option Int := none
  ttl : Int := 300
deriving DecidableEq

/-- Method `CacheEntry.is_expired`: `datetime.now() > self.expires_at`. -/
def CacheEntry.is_expired (e : CacheEntry) (now : Int) : Bool :=
  decide (e.expires_at < now)

/-- Method `CacheEntry.is_stale`: `datetime.now() > expires_at - stale_threshold`. -/
def CacheEntry.is_stale (e : CacheEntry) (stale_threshold : Int) (now : Int) :
    Bool :=
  decide (e.expires_at - stale_threshold < now)

/-- The configuration keys the cache engine reads
(`_get_default_config` values as defaults). -/
structure CacheConfig where
  ttl_default : Int := 300
  ttl_min : Int := 60
  ttl_max : Int := 86400
  max_entries : Nat := 10000
  prefetch_threshold : Int := 60
  auto_ttl_adjustment : Bool := true
  ttl_adjustment_factor : ℚ := 6 / 5
  min_access_for_adjustment : Nat := 10

/-- Defaults of `_get_default_config()`. -/
def defaultConfig : CacheConfig := {}

/-- The store `self.memory_cache`: a Python dict, i.e. an insertion-ordered
association list with pairwise distinct keys. -/
abbrev Store := List (String × CacheEntry)

/-- Dict lookup `m[k]` / `k in m`. -/
def dictGet (m : Store) (k : String) : Option CacheEntry :=
  (m.find? fun kv => kv.1 == k).map (·.2)

def dictHas (m : Store) (k : String) : Bool := (dictGet m k).isSome

/-- Dict update `m[k] = v`: in-place when the key exists (position kept),
appended otherwise — Python dicts preserve insertion order. -/
def dictSet (m : Store) (k : String) (v : CacheEntry) : Store :=
  if dictHas m k then m.map fun kv => if kv.1 == k then (k, v) else kv
  else m ++ [(k, v)]

/-- Dict removal `del m[k]`. -/
def dictDel (m : Store) (k : String) : Store :=
  m.filter fun kv => !(kv.1 == k)

/-- Counters `self.cache_stats`. -/
structure CacheStatsCounters where
  hits : Nat := 0
  misses : Nat := 0
  sets : Nat := 0
  deletes : Nat := 0
  evictions : Nat := 0
deriving DecidableEq

/-- The mutable state of a `DNSCacheManager`, plus a log of the
`asyncio.create_task(self._prefetch_record(...))` calls `get` makes, so
prefetch scheduling is observable. -/
structure EngineState where
  memory_cache : Store := []
  cache_stats : CacheStatsCounters := {}
  prefetch_tasks : List (String × String × Option String) := []
deriving DecidableEq

/-- Interface of `self.redis_client`: each call may fail (network), modelled as
`Except`; deserialization (`pickle.loads`) failures are folded into the
same error channel, since the source catches them at the same spot. -/
structure RedisClient where
  rget : String → Except String (Option CacheEntry)
  rsetex : String → Int → CacheEntry → Except String Unit
  rdel : String → Except String Nat
  rdelMany : List String → Except String Nat
  rkeys : Except String (List String)

/-- Key derivation `_generate_cache_key`: lower-cased domain and upper-cased type
(plus the optional nameserver) joined with `:` and MD5-hex-digested. -/
def generateCacheKey (domain record_type : String)
    (nameserver : Option String := none) : String :=
  let key_parts := [pyLower domain, pyUpper record_type] ++
    (match nameserver with | some ns => [ns] | none => [])
  md5Hex (String.intercalate ":" key_parts)

/-- The guard `self.redis_client and self.cache_backend in ['redis', 'hybrid']`. -/
def redisEnabled (backend : String) : Bool :=
  backend == "redis" || backend == "hybrid"

/-! ## LRU eviction -/

/-- Sort key of `_evict_lru_entries`: `x[1].last_accessed or x[1].created_at`
(`None` is the only falsy value a timestamp field can hold here). -/
def sortKeyOf (e : CacheEntry) : Int :=
  match e.last_accessed with
  | some t => t
  | none => e.created_at

/-- The comparison `key=lambda x: x[1].last_accessed or x[1].created_at`
passed to `sorted` by `_evict_lru_entries`. -/
def entryLE (a b : String × CacheEntry) : Prop :=
  sortKeyOf a.2 ≤ sortKeyOf b.2

instance : DecidableRel entryLE := fun _ _ => Int.decLe _ _

instance : IsTotal (String × CacheEntry) entryLE :=
  ⟨fun _ _ => Int.le_total _ _⟩

instance : IsTrans (String × CacheEntry) entryLE :=
  ⟨fun _ _ _ hab hbc => le_trans hab hbc⟩

/-- Eviction `_evict_lru_entries`, acting on the store and the eviction counter:
stable-sort by access time (Python `sorted` is stable on dict insertion
order, and `List.insertionSort` is the same stable sort), then delete
the oldest `len - target_size` keys, bumping the counter once per
deletion.  `target_size` is `int(max_entries * 0.9)`, which equals
`9 * max_entries / 10` for any realistic size. -/
def evictLruEntries (cfg : CacheConfig) (mc : Store) (evictions : Nat) :
    Store × Nat :=
  let target_size := 9 * cfg.max_entries / 10
  let sorted_entries := List.insertionSort entryLE mc
  let entries_to_remove := mc.length - target_size
  ((sorted_entries.take entries_to_remove).map Prod.fst).foldl
    (fun (p : Store × Nat) k => (dictDel p.1 k, p.2 + 1)) (mc, evictions)

/-! ## Engine operations

Each is written in `Except String` with `tryCatch` exactly where the
source has `try`/`except`; the only primitive throw sites are the
`RedisClient` calls, matching the source where only backend I/O
(including deserialization) raises. -/

/-- Method `DNSCacheManager.get`. -/
def cacheGet (cfg : CacheConfig) (backend : String)
    (redis : Option RedisClient) (st : EngineState) (now : Int)
    (domain record_type : String) (nameserver : Option String := none) :
    Except String (Option Value × EngineState) :=
  let cache_key := generateCacheKey domain record_type nameserver
  let missResult : Option Value × EngineState :=
    (none, { st with
      cache_stats := { st.cache_stats with
        misses := st.cache_stats.misses + 1 } })
  tryCatch
    (match dictGet st.memory_cache cache_key with
     | some entry =>
       if entry.is_expired now then
         pure (none, { st with
           memory_cache := dictDel st.memory_cache cache_key,
           cache_stats := { st.cache_stats with
             misses := st.cache_stats.misses + 1 } })
       else
         let entry := { entry with
           access_count := entry.access_count + 1,
           last_accessed := some now }
         let st1 : EngineState := { st with
           memory_cache := dictSet st.memory_cache cache_key entry,
           cache_stats := { st.cache_stats with
             hits := st.cache_stats.hits + 1 } }
         let st2 :=
           if entry.is_stale cfg.prefetch_threshold now then
             { st1 with prefetch_tasks :=
               st1.prefetch_tasks ++ [(domain, record_type, nameserver)] }
           else st1
         pure (some entry.value, st2)
     | none => do
       let viaRedis : Except String (Option (Option Value × EngineState)) :=
         match redis with
         | some rc =>
           if redisEnabled backend then
             tryCatch
               (do
                 match ← rc.rget cache_key with
                 | some entry =>
                   if !entry.is_expired now then
                     let entry' := { entry with
                       access_count := entry.access_count + 1,
                       last_accessed := some now }
                     let st1 : EngineState :=
                       if backend == "hybrid" then
                         { st with
                           memory_cache :=
                             dictSet st.memory_cache cache_key entry' }
                       else st
                     pure (some (some entry.value, { st1 with
                       cache_stats := { st1.cache_stats with
                         hits := st1.cache_stats.hits + 1 } }))
                   else do
                     let _ ← rc.rdel cache_key
                     pure none
                 | none => pure none)
               (fun _ => pure none)
           else pure none
         | none => pure none
       match ← viaRedis with
       | some res => pure res
       | none => pure missResult)
    (fun _ => pure missResult)

/-- Method `DNSCacheManager.set`. -/
def cacheSet (cfg : CacheConfig) (backend : String)
    (redis : Option RedisClient) (st : EngineState) (now : Int)
    (domain record_type : String) (value : Value)
    (ttl : Option Int := none) (nameserver : Option String := none) :
    Except String (Bool × EngineState) :=
  let cache_key := generateCacheKey domain record_type nameserver
  let ttl0 : Int := match ttl with | none => cfg.ttl_default | some t => t
  let ttl1 : Int := max cfg.ttl_min (min ttl0 cfg.ttl_max)
  tryCatch
    (do
      let entry : CacheEntry :=
        { key := cache_key, value := value, created_at := now,
          expires_at := now + ttl1, ttl := ttl1, last_accessed := some now }
      let mc := dictSet st.memory_cache cache_key entry
      let (mc, ev) :=
        if mc.length > cfg.max_entries then
          evictLruEntries cfg mc st.cache_stats.evictions
        else (mc, st.cache_stats.evictions)
      let _ ← (match redis with
        | some rc =>
          if redisEnabled backend then
            tryCatch (do
              let _ ← rc.rsetex cache_key ttl1 entry
              pure ()) (fun _ => pure ())
          else pure ()
        | none => pure ())
      pure (true, { st with
        memory_cache := mc,
        cache_stats := { st.cache_stats with
          evictions := ev,
          sets := st.cache_stats.sets + 1 } }))
    (fun _ => pure (false, st))

/-- Method `DNSCacheManager.delete`. -/
def cacheDelete (backend : String) (redis : Option RedisClient)
    (st : EngineState) (domain record_type : String)
    (nameserver : Option String := none) :
    Except String (Bool × EngineState) :=
  let cache_key := generateCacheKey domain record_type nameserver
  tryCatch
    (do
      let (deleted, mc) :=
        if dictHas st.memory_cache cache_key then
          (true, dictDel st.memory_cache cache_key)
        else (false, st.memory_cache)
      let deleted ← (match redis with
        | some rc =>
          if redisEnabled backend then
            tryCatch (do
              let n ← rc.rdel cache_key
              pure (deleted || decide (0 < n)))
              (fun _ => pure deleted)
          else pure deleted
        | none => pure deleted)
      let stats :=
        if deleted then
          { st.cache_stats with deletes := st.cache_stats.deletes + 1 }
        else st.cache_stats
      pure (deleted, { st with memory_cache := mc, cache_stats := stats }))
    (fun _ => pure (false, st))

/-- The membership test of `invalidate_domain` on a memory item: the
lowered domain is substring-matched against the (hex-digest) cache key,
or — when the value is a `str` or `list` — against `str(value)`. -/
def invalidationMatch (domain_lower : String) (cache_key : String)
    (v : Value) : Bool :=
  pyIn domain_lower cache_key ||
    (v.isStrOrList && pyIn domain_lower v.pyStr)

/-- Method `DNSCacheManager.invalidate_domain`. -/
def invalidateDomain (backend : String) (redis : Option RedisClient)
    (st : EngineState) (domain : String) :
    Except String (Nat × EngineState) :=
  let domain_lower := pyLower domain
  tryCatch
    (do
      let keys_to_delete :=
        (st.memory_cache.filter fun kv =>
          invalidationMatch domain_lower kv.1 kv.2.value).map Prod.fst
      let (mc, deleted_count) := keys_to_delete.foldl
        (fun (p : Store × Nat) k => (dictDel p.1 k, p.2 + 1))
        (st.memory_cache, 0)
      let deleted_count ← (match redis with
        | some rc =>
          if redisEnabled backend then
            tryCatch
              (do
                let all_keys ← rc.rkeys
                let rKeysToDelete ← all_keys.foldlM
                  (fun (acc : List String) k =>
                    tryCatch
                      (do
                        match ← rc.rget k with
                        | some entry_data =>
                          if invalidationMatch domain_lower k
                              entry_data.value then
                            pure (acc ++ [k])
                          else pure acc
                        | none => pure acc)
                      (fun _ => pure acc)) []
                if rKeysToDelete.isEmpty then pure deleted_count
                else do
                  let n ← rc.rdelMany rKeysToDelete
                  pure (deleted_count + n))
              (fun _ => pure deleted_count)
          else pure deleted_count
        | none => pure deleted_count)
      pure (deleted_count, { st with memory_cache := mc }))
    (fun _ => pure (0, st))

/-- Python `int(q)`: truncation toward zero. -/
def pyInt (q : ℚ) : Int := q.num.tdiv (q.den : Int)

/-- Method `DNSCacheManager.optimize_ttl`.  The float arithmetic of the source
(access-rate and TTL-factor computations) is modelled exactly over ℚ.
The body cannot raise in this model, so the source's dead
`try`/`except` wrapper is omitted. -/
def optimizeTtl (cfg : CacheConfig) (st : EngineState) (now : Int)
    (domain record_type : String) : Int :=
  if !cfg.auto_ttl_adjustment then cfg.ttl_default
  else
    let cache_key := generateCacheKey domain record_type
    match dictGet st.memory_cache cache_key with
    | some entry =>
      if entry.access_count ≥ cfg.min_access_for_adjustment then
        let access_per_hour : ℚ :=
          (entry.access_count : ℚ) /
            max 1 (((now - entry.created_at : Int) : ℚ) / 3600)
        let optimal_ttl : Int :=
          if access_per_hour > 10 then
            pyInt ((entry.ttl : ℚ) * cfg.ttl_adjustment_factor)
          else if access_per_hour < 1 then
            pyInt ((entry.ttl : ℚ) / cfg.ttl_adjustment_factor)
          else entry.ttl
        max cfg.ttl_min (min optimal_ttl cfg.ttl_max)
      else cfg.ttl_default
    | none => cfg.ttl_default

/-! ## Helper lemmas on the dict model and on `tryCatch` -/

deriving instance DecidableEq for Except

theorem tryCatch_ok (a : α) (f : String → Except String α) :
    tryCatch (Except.ok a : Except String α) f = Except.ok a := rfl

theorem tryCatch_error (e : String) (f : String → Except String α) :
    tryCatch (Except.error e : Except String α) f = f e := rfl

theorem isOk_tryCatch (x : Except String α) (f : String → Except String α)
    (h : ∀ s, (f s).isOk = true) : (tryCatch x f).isOk = true := by
  cases x with
  | ok a => rfl
  | error e => exact h e

theorem dictGet_nil (k : String) : dictGet [] k = none := rfl

theorem dictGet_cons (hd : String × CacheEntry) (tl : Store) (k : String) :
    dictGet (hd :: tl) k =
      if hd.1 == k then some hd.2 else dictGet tl k := by
  by_cases h : hd.1 == k
  · simp [dictGet, List.find?, h]
  · simp only [Bool.not_eq_true] at h
    simp [dictGet, List.find?, h]

theorem dictDel_cons (hd : String × CacheEntry) (tl : Store) (k : String) :
    dictDel (hd :: tl) k =
      if hd.1 == k then dictDel tl k else hd :: dictDel tl k := by
  by_cases h : hd.1 == k
  · simp [dictDel, List.filter, h]
  · simp only [Bool.not_eq_true] at h
    simp [dictDel, List.filter, h]

theorem dictSet_cons (hd : String × CacheEntry) (tl : Store) (k : String)
    (e : CacheEntry) :
    dictSet (hd :: tl) k e =
      if hd.1 == k then (k, e) :: tl.map (fun kv => if kv.1 == k then (k, e) else kv)
      else if dictHas tl k then hd :: tl.map (fun kv => if kv.1 == k then (k, e) else kv)
      else hd :: (tl ++ [(k, e)]) := by
  by_cases h : hd.1 == k
  · have hh : dictHas (hd :: tl) k = true := by
      simp [dictHas, dictGet_cons, h]
    simp [dictSet, hh, h, List.map]
  · simp only [Bool.not_eq_true] at h
    have hh : dictHas (hd :: tl) k = dictHas tl k := by
      simp [dictHas, dictGet_cons, h]
    by_cases htl : dictHas tl k
    · simp [dictSet, hh, htl, h, List.map]
    · simp only [Bool.not_eq_true] at htl
      simp [dictSet, hh, htl, h]

theorem dictGet_dictSet_self (m : Store) (k : String) (e : CacheEntry) :
    dictGet (dictSet m k e) k = some e := by
  induction m with
  | nil => simp [dictSet, dictHas, dictGet]
  | cons hd tl ih =>
    rw [dictSet_cons]
    by_cases h : hd.1 == k
    · simp [h, dictGet_cons]
    · simp only [Bool.not_eq_true] at h
      by_cases htl : dictHas tl k
      · simp only [h, Bool.false_eq_true, if_false, htl, if_true]
        have := ih
        simp only [dictSet, htl, if_true] at this
        simpa [dictGet_cons, h] using this
      · simp only [h, Bool.false_eq_true, if_false, htl]
        have := ih
        simp only [dictSet, htl, Bool.false_eq_true, if_false] at this
        simpa [dictGet_cons, h] using this

theorem dictGet_dictDel_self (m : Store) (k : String) :
    dictGet (dictDel m k) k = none := by
  induction m with
  | nil => rfl
  | cons hd tl ih =>
    rw [dictDel_cons]
    by_cases h : hd.1 == k
    · simp [h, ih]
    · simp only [Bool.not_eq_true] at h
      simp [h, dictGet_cons, ih]

theorem dictGet_dictDel_ne (m : Store) (k k' : String) (h : k' ≠ k) :
    dictGet (dictDel m k) k' = dictGet m k' := by
  induction m with
  | nil => rfl
  | cons hd tl ih =>
    rw [dictDel_cons]
    by_cases hb : hd.1 == k
    · have hb' : (hd.1 == k') = false := by
        simp only [beq_iff_eq] at hb
        simp [hb]
        exact fun hh => (h hh.symm).elim
      simp [hb, dictGet_cons, hb', ih]
    · simp only [Bool.not_eq_true] at hb
      simp [hb, dictGet_cons, ih]

theorem mem_dictSet (m : Store) (k : String) (e : CacheEntry)
    (kv : String × CacheEntry) (h : kv ∈ dictSet m k e) :
    kv ∈ m ∨ kv = (k, e) := by
  unfold dictSet at h
  by_cases hh : dictHas m k
  · simp only [hh, if_true] at h
    obtain ⟨kv0, hkv0, hmap⟩ := List.mem_map.mp h
    by_cases hb : kv0.1 == k
    · right
      simp [hb] at hmap
      exact hmap.symm
    · left
      simp only [hb, Bool.false_eq_true, if_false] at hmap
      exact hmap ▸ hkv0
  · simp only [hh, Bool.false_eq_true, if_false] at h
    rcases List.mem_append.mp h with h1 | h2
    · exact Or.inl h1
    · exact Or.inr (List.mem_singleton.mp h2)

theorem mem_dictDel (m : Store) (k : String) (kv : String × CacheEntry)
    (h : kv ∈ dictDel m k) : kv ∈ m :=
  List.mem_of_mem_filter h

theorem dictGet_mem (m : Store) (k : String) (e : CacheEntry)
    (h : dictGet m k = some e) : (k, e) ∈ m := by
  unfold dictGet at h
  cases hf : m.find? (fun kv => kv.1 == k) with
  | none => simp [hf] at h
  | some kv =>
    simp only [hf, Option.map_some'] at h
    have hmem := List.mem_of_find?_eq_some hf
    have hkey := List.find?_some hf
    simp at hkey
    have : kv = (k, e) := by
      cases kv
      simp_all
    exact this ▸ hmem

/-- The first component of the delete-and-count loop used by
`_evict_lru_entries` and `invalidate_domain`. -/
theorem foldl_del_fst (ks : List String) (m : Store) (n : Nat) :
    (ks.foldl (fun (p : Store × Nat) k => (dictDel p.1 k, p.2 + 1)) (m, n)).1 =
      ks.foldl dictDel m := by
  induction ks generalizing m n with
  | nil => rfl
  | cons k ks ih => simpa using ih (dictDel m k) (n + 1)

/-- The counter component of the delete-and-count loop: one increment
per key processed. -/
theorem foldl_del_snd (ks : List String) (m : Store) (n : Nat) :
    (ks.foldl (fun (p : Store × Nat) k => (dictDel p.1 k, p.2 + 1)) (m, n)).2 =
      n + ks.length := by
  induction ks generalizing m n with
  | nil => rfl
  | cons k ks ih =>
    simp only [List.foldl, List.length_cons]
    rw [ih]
    omega

theorem foldl_dictDel_get (ks : List String) (m : Store) (k : String)
    (h : k ∉ ks) : dictGet (ks.foldl dictDel m) k = dictGet m k := by
  induction ks generalizing m with
  | nil => rfl
  | cons k0 ks ih =>
    simp only [List.foldl]
    rw [ih (dictDel m k0) (fun hk => h (List.mem_cons_of_mem _ hk))]
    exact dictGet_dictDel_ne m k0 k (fun hk => h (hk ▸ List.mem_cons_self _ _))

theorem mem_foldl_dictDel (ks : List String) (m : Store)
    (kv : String × CacheEntry) (h : kv ∈ ks.foldl dictDel m) : kv ∈ m := by
  induction ks generalizing m with
  | nil => exact h
  | cons k0 ks ih => exact mem_dictDel m k0 kv (ih (dictDel m k0) h)

/-! ## Case-normalization of cache keys -/

theorem char_toNat_ofNat_lt (n : Nat) (h : n < 55296) :
    (Char.ofNat n).toNat = n := by
  simp [Char.ofNat, Nat.isValidChar, h, Char.ofNatAux, Char.toNat]
  rfl

theorem pyLowerChar_idem (c : Char) :
    pyLowerChar (pyLowerChar c) = pyLowerChar c := by
  by_cases h : 65 ≤ c.toNat ∧ c.toNat ≤ 90
  · have h1 : pyLowerChar c = Char.ofNat (c.toNat + 32) := by
      unfold pyLowerChar
      rw [if_pos h]
    have hv : (Char.ofNat (c.toNat + 32)).toNat = c.toNat + 32 :=
      char_toNat_ofNat_lt _ (by omega)
    rw [h1]
    unfold pyLowerChar
    rw [if_neg (by rw [hv]; omega)]
  · have h1 : pyLowerChar c = c := by
      unfold pyLowerChar
      rw [if_neg h]
    rw [h1, h1]

theorem pyUpperChar_idem (c : Char) :
    pyUpperChar (pyUpperChar c) = pyUpperChar c := by
  by_cases h : 97 ≤ c.toNat ∧ c.toNat ≤ 122
  · have h1 : pyUpperChar c = Char.ofNat (c.toNat - 32) := by
      unfold pyUpperChar
      rw [if_pos h]
    have hv : (Char.ofNat (c.toNat - 32)).toNat = c.toNat - 32 :=
      char_toNat_ofNat_lt _ (by omega)
    rw [h1]
    unfold pyUpperChar
    rw [if_neg (by rw [hv]; omega)]
  · have h1 : pyUpperChar c = c := by
      unfold pyUpperChar
      rw [if_neg h]
    rw [h1, h1]

theorem pyLower_idem (s : String) : pyLower (pyLower s) = pyLower s := by
  unfold pyLower
  refine congrArg String.mk ?_
  rw [List.map_map]
  exact List.map_congr_left fun a _ => pyLowerChar_idem a

theorem pyUpper_idem (s : String) : pyUpper (pyUpper s) = pyUpper s := by
  unfold pyUpper
  refine congrArg String.mk ?_
  rw [List.map_map]
  exact List.map_congr_left fun a _ => pyUpperChar_idem a

/-- C10: cache keys are deterministic and case-normalized: the key of
`(d, t, n)` equals the key of `(lowercase d, uppercase t, n)`, so `set`
with one casing and `get`/`delete` with another casing of the same
domain and type address the same entry. -/
theorem C10_cache_key_case_normalized (domain record_type : String)
    (nameserver : Option String) :
    generateCacheKey domain record_type nameserver =
      generateCacheKey (pyLower domain) (pyUpper record_type) nameserver := by
  unfold generateCacheKey
  rw [pyLower_idem, pyUpper_idem]

/-! ## Staleness vs. expiry -/

/-- C3 counterexample: the claim "`isStale` implies `not isExpired`" is
false at this input: an entry with `expires_at = 100` observed at
`now = 161` under the default `stale_threshold = 60` is both stale
(`161 > 100 - 60`) and expired (`161 > 100`). -/
theorem C3_counterexample :
    CacheEntry.is_stale
      { key := "k", value := .vnone, created_at := 0, expires_at := 100 }
      60 161 = true ∧
    CacheEntry.is_expired
      { key := "k", value := .vnone, created_at := 0, expires_at := 100 }
      161 = true := by
  constructor <;> decide

/-- C3 (amended): `is_stale` has no upper cutoff, so stale is not a
strict sub-window before expiry; instead, for any nonnegative stale
threshold, every expired entry is also stale. -/
theorem C3_expired_implies_stale (e : CacheEntry) (threshold now : Int)
    (h : 0 ≤ threshold) (hexp : e.is_expired now = true) :
    e.is_stale threshold now = true := by
  unfold CacheEntry.is_expired at hexp
  unfold CacheEntry.is_stale
  simp only [decide_eq_true_eq] at hexp ⊢
  omega

theorem C3_expired_implies_stale_witness :
    (0 : Int) ≤ 60 ∧
    CacheEntry.is_expired
      { key := "w", value := .vnone, created_at := 0, expires_at := 50 }
      200 = true ∧
    CacheEntry.is_stale
      { key := "w", value := .vnone, created_at := 0, expires_at := 50 }
      60 200 = true :=
  ⟨by decide, by decide,
    C3_expired_implies_stale
      { key := "w", value := .vnone, created_at := 0, expires_at := 50 }
      60 200 (by decide) (by decide)⟩

/-! ## Error containment of the cache-path operations -/

/-- C2: for every input and every cache/backend state — including an
absent remote backend or one whose every call fails — `get`, `set`,
`delete` and `invalidate_domain` return normally (a value or
`None`/bool/int) and never propagate an exception to the caller. -/
theorem C2_ops_never_raise (cfg : CacheConfig) (backend : String)
    (redis : Option RedisClient) (st : EngineState) (now : Int)
    (domain record_type : String) (nameserver : Option String)
    (value : Value) (ttl : Option Int) :
    (cacheGet cfg backend redis st now domain record_type
      nameserver).isOk = true ∧
    (cacheSet cfg backend redis st now domain record_type value ttl
      nameserver).isOk = true ∧
    (cacheDelete backend redis st domain record_type
      nameserver).isOk = true ∧
    (invalidateDomain backend redis st domain).isOk = true := by
  refine ⟨?_, ?_, ?_, ?_⟩
  · exact isOk_tryCatch _ _ fun s => rfl
  · exact isOk_tryCatch _ _ fun s => rfl
  · exact isOk_tryCatch _ _ fun s => rfl
  · exact isOk_tryCatch _ _ fun s => rfl

/-! ## Lazy expiry on `get` -/

/-- C4: a `get` on a key whose in-memory entry has `now > expires_at`
removes the entry from the memory store, increments the miss counter
(not the hit counter), and reports not-found — on any backend, since
the memory tier is consulted first. -/
theorem C4_lazy_expiry (cfg : CacheConfig) (backend : String)
    (redis : Option RedisClient) (st : EngineState) (now : Int)
    (domain record_type : String) (nameserver : Option String)
    (entry : CacheEntry)
    (hfound : dictGet st.memory_cache
      (generateCacheKey domain record_type nameserver) = some entry)
    (hexp : entry.is_expired now = true) :
    ∃ st1 : EngineState,
      cacheGet cfg backend redis st now domain record_type nameserver =
        .ok (none, st1) ∧
      dictGet st1.memory_cache
        (generateCacheKey domain record_type nameserver) = none ∧
      st1.cache_stats.misses = st.cache_stats.misses + 1 ∧
      st1.cache_stats.hits = st.cache_stats.hits := by
  refine ⟨{ st with
    memory_cache := dictDel st.memory_cache
      (generateCacheKey domain record_type nameserver),
    cache_stats := { st.cache_stats with
      misses := st.cache_stats.misses + 1 } }, ?_, ?_, rfl, rfl⟩
  · unfold cacheGet
    simp [hfound, hexp, pure, Except.pure, tryCatch_ok]
  · exact dictGet_dictDel_self _ _

/-- A concrete already-expired entry used to exercise `C4_lazy_expiry`. -/
def c4entry : CacheEntry :=
  { key := generateCacheKey "a.com" "A" none, value := .vstr "1.2.3.4",
    created_at := 0, expires_at := 60, ttl := 60 }

/-- A state holding only `c4entry`. -/
def c4state : EngineState :=
  { memory_cache := [(generateCacheKey "a.com" "A" none, c4entry)] }

theorem C4_lazy_expiry_witness :
    dictGet c4state.memory_cache (generateCacheKey "a.com" "A" none) =
      some c4entry ∧
    c4entry.is_expired 100 = true ∧
    ∃ st1 : EngineState,
      cacheGet defaultConfig "memory" none c4state 100 "a.com" "A" none =
        .ok (none, st1) ∧
      dictGet st1.memory_cache (generateCacheKey "a.com" "A" none) = none ∧
      st1.cache_stats.misses = c4state.cache_stats.misses + 1 ∧
      st1.cache_stats.hits = c4state.cache_stats.hits :=
  ⟨by rw [c4state, dictGet_cons]; simp, by decide,
    C4_lazy_expiry defaultConfig "memory" none c4state 100 "a.com" "A" none
      c4entry (by rw [c4state, dictGet_cons]; simp) (by decide)⟩

/-! ## TTL optimizer -/

/-- A concrete hot-enough-to-matter entry with `ttl = 600` but only 5
recorded accesses (below the default `min_access_for_adjustment = 10`). -/
def c9entry : CacheEntry :=
  { key := generateCacheKey "x.com" "A" none, value := .vstr "1.2.3.4",
    created_at := 0, expires_at := 600, ttl := 600, access_count := 5 }

def c9state : EngineState :=
  { memory_cache := [(generateCacheKey "x.com" "A" none, c9entry)] }

/-- C9 counterexample: below `min_access_for_adjustment` the optimizer
is not a no-op returning the entry's own `ttl` (600): it returns the
configured `ttl_default` (300) instead. -/
theorem C9_counterexample :
    optimizeTtl defaultConfig c9state 1000 "x.com" "A" = 300 ∧
    c9entry.ttl = 600 ∧ (300 : Int) ≠ 600 := by
  refine ⟨?_, rfl, by decide⟩
  have hg : dictGet c9state.memory_cache
      (generateCacheKey "x.com" "A" none) = some c9entry := by
    rw [c9state, dictGet_cons]
    simp
  unfold optimizeTtl
  simp [hg, defaultConfig, c9entry]

/-- C9 (amended): when the entry's `access_count` is below
`min_access_for_adjustment` the optimizer returns the configured
`ttl_default` (not the entry's own `ttl`); at or above the threshold it
returns `ttl × factor` when the hourly access rate exceeds 10,
`ttl / factor` when it is below 1, and `ttl` otherwise, always clamped
to `[ttl_min, ttl_max]`. -/
theorem C9_optimize_ttl_amended (cfg : CacheConfig) (st : EngineState)
    (now : Int) (domain record_type : String) (entry : CacheEntry)
    (hauto : cfg.auto_ttl_adjustment = true)
    (hfound : dictGet st.memory_cache
      (generateCacheKey domain record_type none) = some entry) :
    optimizeTtl cfg st now domain record_type =
      if entry.access_count ≥ cfg.min_access_for_adjustment then
        let rate : ℚ := (entry.access_count : ℚ) /
          max 1 (((now - entry.created_at : Int) : ℚ) / 3600)
        max cfg.ttl_min (min
          (if rate > 10 then
            pyInt ((entry.ttl : ℚ) * cfg.ttl_adjustment_factor)
          else if rate < 1 then
            pyInt ((entry.ttl : ℚ) / cfg.ttl_adjustment_factor)
          else entry.ttl) cfg.ttl_max)
      else cfg.ttl_default := by
  unfold optimizeTtl
  rw [hauto]
  simp only [Bool.not_true, Bool.false_eq_true, if_false, hfound]

theorem C9_optimize_ttl_amended_witness :
    defaultConfig.auto_ttl_adjustment = true ∧
    dictGet c9state.memory_cache
      (generateCacheKey "x.com" "A" none) = some c9entry ∧
    optimizeTtl defaultConfig c9state 1000 "x.com" "A" =
      (if c9entry.access_count ≥ defaultConfig.min_access_for_adjustment then
        let rate : ℚ := (c9entry.access_count : ℚ) /
          max 1 (((1000 - c9entry.created_at : Int) : ℚ) / 3600)
        max defaultConfig.ttl_min (min
          (if rate > 10 then
            pyInt ((c9entry.ttl : ℚ) * defaultConfig.ttl_adjustment_factor)
          else if rate < 1 then
            pyInt ((c9entry.ttl : ℚ) / defaultConfig.ttl_adjustment_factor)
          else c9entry.ttl) defaultConfig.ttl_max)
      else defaultConfig.ttl_default) :=
  ⟨rfl, by rw [c9state, dictGet_cons]; simp,
    C9_optimize_ttl_amended defaultConfig c9state 1000 "x.com" "A" c9entry
      rfl (by rw [c9state, dictGet_cons]; simp)⟩

/-! ## Domain invalidation matches value substrings, not domains -/

/-- The claim's cache population: A and MX records of `example.com` and
a TXT record of `other.com` (an SPF string mentioning `example.com`,
as TXT records of unrelated domains routinely do). -/
def c1state : EngineState :=
  { memory_cache :=
    [(generateCacheKey "example.com" "A" none,
      { key := generateCacheKey "example.com" "A" none,
        value := .vstr "93.184.216.34",
        created_at := 0, expires_at := 300, ttl := 300 }),
     (generateCacheKey "example.com" "MX" none,
      { key := generateCacheKey "example.com" "MX" none,
        value := .vstr "mail.example.com",
        created_at := 0, expires_at := 300, ttl := 300 }),
     (generateCacheKey "other.com" "TXT" none,
      { key := generateCacheKey "other.com" "TXT" none,
        value := .vstr "v=spf1 include:example.com ~all",
        created_at := 0, expires_at := 300, ttl := 300 })] }

set_option maxRecDepth 40000 in
/-- C1 evaluated at the failing input: `invalidate_domain("example.com")`
substring-matches the lowered domain against MD5-hex cache keys (which
can never contain a `.`) and against `str(value)`.  On the state above
it reports 2 deletions, but deletes the wrong set: the `A example.com`
entry (value `93.184.216.34`) survives, while the `TXT other.com`
entry is deleted because its value mentions `example.com`. -/
theorem C1_substring_invalidation :
    (invalidateDomain "memory" none c1state "example.com").toOption.map
      (fun p => (p.1,
        dictHas p.2.memory_cache (generateCacheKey "example.com" "A" none),
        dictHas p.2.memory_cache (generateCacheKey "example.com" "MX" none),
        dictHas p.2.memory_cache (generateCacheKey "other.com" "TXT" none))) =
      some (2, true, false, false) := by
  decide

/-! ## Prefetch scheduling has no per-key de-duplication -/

/-- A stale-but-valid entry: `ttl = 120`, observed at age 65 with the
default `prefetch_threshold = 60`. -/
def c8state : EngineState :=
  { memory_cache :=
    [(generateCacheKey "x.com" "A" none,
      { key := generateCacheKey "x.com" "A" none, value := .vstr "1.2.3.4",
        created_at := 0, expires_at := 120, ttl := 120 })] }

set_option maxRecDepth 40000 in
/-- C8 evaluated at the failing input: two consecutive `get` calls on
the same stale (not yet expired) key both return the old value and each
schedules its own `_prefetch_record` task — two tasks total, not one. -/
theorem C8_prefetch_fanout :
    (do
      let r1 ← cacheGet defaultConfig "memory" none c8state 65 "x.com" "A" none
      let r2 ← cacheGet defaultConfig "memory" none r1.2 65 "x.com" "A" none
      pure (r1.1, r2.1, r2.2.prefetch_tasks.length) :
      Except String (Option Value × Option Value × Nat)) =
      .ok (some (.vstr "1.2.3.4"), some (.vstr "1.2.3.4"), 2) := by
  decide

/-! ## Closed forms of the operations on the memory backend -/

theorem cacheGet_memory_miss (cfg : CacheConfig) (st : EngineState)
    (now : Int) (d t : String) (ns : Option String)
    (h : dictGet st.memory_cache (generateCacheKey d t ns) = none) :
    cacheGet cfg "memory" none st now d t ns = .ok (none, { st with
      cache_stats := { st.cache_stats with
        misses := st.cache_stats.misses + 1 } }) := by
  unfold cacheGet
  simp [h, tryCatch_ok, pure, Except.pure, bind, Except.bind]

theorem cacheGet_memory_expired (cfg : CacheConfig) (st : EngineState)
    (now : Int) (d t : String) (ns : Option String) (entry : CacheEntry)
    (hfound : dictGet st.memory_cache (generateCacheKey d t ns) = some entry)
    (hexp : entry.is_expired now = true) :
    cacheGet cfg "memory" none st now d t ns = .ok (none, { st with
      memory_cache := dictDel st.memory_cache (generateCacheKey d t ns),
      cache_stats := { st.cache_stats with
        misses := st.cache_stats.misses + 1 } }) := by
  unfold cacheGet
  simp [hfound, hexp, tryCatch_ok, pure, Except.pure]

/-- The state produced by a non-expired memory hit. -/
def hitState (cfg : CacheConfig) (st : EngineState) (now : Int)
    (d t : String) (ns : Option String) (entry : CacheEntry) : EngineState :=
  let entry1 : CacheEntry := { entry with
    access_count := entry.access_count + 1, last_accessed := some now }
  let st1 : EngineState := { st with
    memory_cache := dictSet st.memory_cache (generateCacheKey d t ns) entry1,
    cache_stats := { st.cache_stats with
      hits := st.cache_stats.hits + 1 } }
  if entry1.is_stale cfg.prefetch_threshold now then
    { st1 with prefetch_tasks := st1.prefetch_tasks ++ [(d, t, ns)] }
  else st1

theorem cacheGet_memory_hit (cfg : CacheConfig) (st : EngineState)
    (now : Int) (d t : String) (ns : Option String) (entry : CacheEntry)
    (hfound : dictGet st.memory_cache (generateCacheKey d t ns) = some entry)
    (hexp : entry.is_expired now = false) :
    cacheGet cfg "memory" none st now d t ns =
      .ok (some entry.value, hitState cfg st now d t ns entry) := by
  unfold cacheGet hitState
  simp [hfound, hexp, tryCatch_ok, pure, Except.pure]

/-- The entry built by `set` at time `now` with requested ttl `ttl`. -/
def setEntry (cfg : CacheConfig) (now : Int) (d t : String)
    (ns : Option String) (v : Value) (ttl : Option Int) : CacheEntry :=
  let ttl1 : Int := max cfg.ttl_min
    (min (match ttl with | none => cfg.ttl_default | some x => x) cfg.ttl_max)
  { key := generateCacheKey d t ns, value := v, created_at := now,
    expires_at := now + ttl1, ttl := ttl1, last_accessed := some now }

/-- The state produced by `set` on the memory backend. -/
def setState (cfg : CacheConfig) (st : EngineState) (now : Int)
    (d t : String) (ns : Option String) (v : Value) (ttl : Option Int) :
    EngineState :=
  let mc := dictSet st.memory_cache (generateCacheKey d t ns)
    (setEntry cfg now d t ns v ttl)
  let (mc1, ev) :=
    if mc.length > cfg.max_entries then
      evictLruEntries cfg mc st.cache_stats.evictions
    else (mc, st.cache_stats.evictions)
  { st with
    memory_cache := mc1,
    cache_stats := { st.cache_stats with
      evictions := ev,
      sets := st.cache_stats.sets + 1 } }

theorem cacheSet_memory (cfg : CacheConfig) (st : EngineState) (now : Int)
    (d t : String) (v : Value) (ttl : Option Int) (ns : Option String) :
    cacheSet cfg "memory" none st now d t v ttl ns =
      .ok (true, setState cfg st now d t ns v ttl) := rfl

theorem cacheDelete_memory (st : EngineState) (d t : String)
    (ns : Option String) :
    cacheDelete "memory" none st d t ns =
      .ok (dictHas st.memory_cache (generateCacheKey d t ns),
        { st with
          memory_cache :=
            if dictHas st.memory_cache (generateCacheKey d t ns) then
              dictDel st.memory_cache (generateCacheKey d t ns)
            else st.memory_cache,
          cache_stats :=
            if dictHas st.memory_cache (generateCacheKey d t ns) then
              { st.cache_stats with
                deletes := st.cache_stats.deletes + 1 }
            else st.cache_stats }) := by
  unfold cacheDelete
  by_cases h : dictHas st.memory_cache (generateCacheKey d t ns)
  · simp [h, tryCatch_ok, pure, Except.pure, bind, Except.bind]
  · simp [h, tryCatch_ok, pure, Except.pure, bind, Except.bind]

theorem invalidateDomain_memory (st : EngineState) (domain : String) :
    invalidateDomain "memory" none st domain =
      .ok (((st.memory_cache.filter fun kv =>
          invalidationMatch (pyLower domain) kv.1 kv.2.value).map
            Prod.fst).length,
        { st with memory_cache :=
          ((st.memory_cache.filter fun kv =>
            invalidationMatch (pyLower domain) kv.1 kv.2.value).map
              Prod.fst).foldl dictDel st.memory_cache }) := by
  have h0 : invalidateDomain "memory" none st domain =
      .ok ((((st.memory_cache.filter fun kv =>
          invalidationMatch (pyLower domain) kv.1 kv.2.value).map
            Prod.fst).foldl
              (fun (p : Store × Nat) k => (dictDel p.1 k, p.2 + 1))
              (st.memory_cache, 0)).2,
        { st with memory_cache :=
          (((st.memory_cache.filter fun kv =>
            invalidationMatch (pyLower domain) kv.1 kv.2.value).map
              Prod.fst).foldl
                (fun (p : Store × Nat) k => (dictDel p.1 k, p.2 + 1))
                (st.memory_cache, 0)).1 }) := rfl
  rw [h0, foldl_del_fst, foldl_del_snd]
  norm_num

/-! ## TTL bounds and expiry arithmetic as a store invariant -/

/-- One cache-path call on the memory backend (the clock is an explicit
argument of each call). -/
inductive CacheOp where
  | opGet (now : Int) (domain record_type : String) (ns : Option String)
  | opSet (now : Int) (domain record_type : String) (v : Value)
      (ttl : Option Int) (ns : Option String)
  | opDelete (domain record_type : String) (ns : Option String)
  | opInvalidate (domain : String)

/-- Execute one operation, keeping the resulting state. -/
def runOp (cfg : CacheConfig) (st : EngineState) : CacheOp → EngineState
  | .opGet now d t ns =>
    match cacheGet cfg "memory" none st now d t ns with
    | .ok (_, st1) => st1
    | .error _ => st
  | .opSet now d t v ttl ns =>
    match cacheSet cfg "memory" none st now d t v ttl ns with
    | .ok (_, st1) => st1
    | .error _ => st
  | .opDelete d t ns =>
    match cacheDelete "memory" none st d t ns with
    | .ok (_, st1) => st1
    | .error _ => st
  | .opInvalidate d =>
    match invalidateDomain "memory" none st d with
    | .ok (_, st1) => st1
    | .error _ => st

/-- Execute a sequence of operations from the empty initial state. -/
def runOps (cfg : CacheConfig) (ops : List CacheOp) : EngineState :=
  ops.foldl (runOp cfg) {}

/-- The two entry invariants of the claim: the stored ttl lies in
`[ttl_min, ttl_max]` and `expires_at = created_at + ttl`. -/
def EntryWf (cfg : CacheConfig) (e : CacheEntry) : Prop :=
  cfg.ttl_min ≤ e.ttl ∧ e.ttl ≤ cfg.ttl_max ∧
    e.expires_at = e.created_at + e.ttl

theorem entryWf_setEntry (cfg : CacheConfig) (now : Int) (d t : String)
    (ns : Option String) (v : Value) (ttl : Option Int)
    (h : cfg.ttl_min ≤ cfg.ttl_max) :
    EntryWf cfg (setEntry cfg now d t ns v ttl) := by
  refine ⟨le_max_left _ _, max_le h (min_le_right _ _), ?_⟩
  simp [setEntry]

theorem mem_evict (cfg : CacheConfig) (m : Store) (ev : Nat)
    (kv : String × CacheEntry)
    (h : kv ∈ (evictLruEntries cfg m ev).1) : kv ∈ m := by
  have h1 := h
  unfold evictLruEntries at h1
  rw [foldl_del_fst] at h1
  exact mem_foldl_dictDel _ _ _ h1

theorem mem_setState (cfg : CacheConfig) (st : EngineState) (now : Int)
    (d t : String) (ns : Option String) (v : Value) (ttl : Option Int)
    (kv : String × CacheEntry)
    (h : kv ∈ (setState cfg st now d t ns v ttl).memory_cache) :
    kv ∈ dictSet st.memory_cache (generateCacheKey d t ns)
      (setEntry cfg now d t ns v ttl) := by
  unfold setState at h
  set mc := dictSet st.memory_cache (generateCacheKey d t ns)
    (setEntry cfg now d t ns v ttl) with hmc
  by_cases hlen : mc.length > cfg.max_entries
  · simp only [hlen, if_true] at h
    exact mem_evict cfg mc st.cache_stats.evictions kv h
  · simp only [hlen, if_false] at h
    exact h

theorem wf_runOp (cfg : CacheConfig) (h : cfg.ttl_min ≤ cfg.ttl_max)
    (st : EngineState) (op : CacheOp)
    (hwf : ∀ kv ∈ st.memory_cache, EntryWf cfg kv.2) :
    ∀ kv ∈ (runOp cfg st op).memory_cache, EntryWf cfg kv.2 := by
  cases op with
  | opGet now d t ns =>
    cases hget : dictGet st.memory_cache (generateCacheKey d t ns) with
    | none =>
      intro kv hkv
      simp only [runOp] at hkv
      rw [cacheGet_memory_miss cfg st now d t ns hget] at hkv
      exact hwf kv hkv
    | some entry =>
      by_cases hexp : entry.is_expired now = true
      · intro kv hkv
        simp only [runOp] at hkv
        rw [cacheGet_memory_expired cfg st now d t ns entry hget hexp] at hkv
        exact hwf kv (mem_dictDel _ _ _ hkv)
      · have hexp' : entry.is_expired now = false :=
          Bool.not_eq_true _ ▸ eq_false_of_ne_true hexp
        intro kv hkv
        simp only [runOp] at hkv
        rw [cacheGet_memory_hit cfg st now d t ns entry hget hexp'] at hkv
        have hmem : kv ∈ dictSet st.memory_cache (generateCacheKey d t ns)
            { entry with
              access_count := entry.access_count + 1,
              last_accessed := some now } := by
          unfold hitState at hkv
          by_cases hst : CacheEntry.is_stale
              { entry with
                access_count := entry.access_count + 1,
                last_accessed := some now }
              cfg.prefetch_threshold now = true
          · simpa only [hst, if_true] using hkv
          · simpa only [hst, if_false] using hkv
        rcases mem_dictSet _ _ _ _ hmem with hm | he
        · exact hwf kv hm
        · have hent : EntryWf cfg entry :=
            hwf _ (dictGet_mem _ _ _ hget)
          rw [he]
          exact ⟨hent.1, hent.2.1, hent.2.2⟩
  | opSet now d t v ttl ns =>
    intro kv hkv
    simp only [runOp] at hkv
    rw [cacheSet_memory] at hkv
    rcases mem_dictSet _ _ _ _
        (mem_setState cfg st now d t ns v ttl kv hkv) with hm | he
    · exact hwf kv hm
    · rw [he]
      exact entryWf_setEntry cfg now d t ns v ttl h
  | opDelete d t ns =>
    intro kv hkv
    simp only [runOp] at hkv
    rw [cacheDelete_memory] at hkv
    by_cases hhas : dictHas st.memory_cache (generateCacheKey d t ns)
    · simp only [hhas, if_true] at hkv
      exact hwf kv (mem_dictDel _ _ _ hkv)
    · simp only [hhas, if_false] at hkv
      exact hwf kv hkv
  | opInvalidate d =>
    intro kv hkv
    simp only [runOp] at hkv
    rw [invalidateDomain_memory] at hkv
    exact hwf kv (mem_foldl_dictDel _ _ _ hkv)

/-- C6: every entry created by `set` has its ttl clamped into
`[ttl_min, ttl_max]` (never rejected: `set` returns success) with
`expires_at = created_at + ttl`, and both invariants hold for every
entry of the memory store after any sequence of cache operations run
from the empty state. -/
theorem C6_ttl_and_expiry_invariant (cfg : CacheConfig)
    (h : cfg.ttl_min ≤ cfg.ttl_max) :
    (∀ ops : List CacheOp, ∀ kv ∈ (runOps cfg ops).memory_cache,
      EntryWf cfg kv.2) ∧
    (∀ (st : EngineState) (now : Int) (d t : String) (v : Value)
      (ttl : Option Int) (ns : Option String),
      cacheSet cfg "memory" none st now d t v ttl ns =
        .ok (true, setState cfg st now d t ns v ttl) ∧
      EntryWf cfg (setEntry cfg now d t ns v ttl)) := by
  constructor
  · have H : ∀ (ops : List CacheOp) (st : EngineState),
        (∀ kv ∈ st.memory_cache, EntryWf cfg kv.2) →
        ∀ kv ∈ (ops.foldl (runOp cfg) st).memory_cache, EntryWf cfg kv.2 := by
      intro ops
      induction ops with
      | nil => intro st hst; exact hst
      | cons op ops ih =>
        intro st hst
        exact ih _ (wf_runOp cfg h st op hst)
    intro ops
    exact H ops {} (by intro kv hkv; simp [EngineState.mk] at hkv)
  · intro st now d t v ttl ns
    exact ⟨cacheSet_memory cfg st now d t v ttl ns,
      entryWf_setEntry cfg now d t ns v ttl h⟩

theorem C6_ttl_and_expiry_invariant_witness :
    defaultConfig.ttl_min ≤ defaultConfig.ttl_max ∧
    (∀ kv ∈ (runOps defaultConfig
        [.opSet 0 "a.com" "A" (.vstr "1.2.3.4") (some 999999) none,
         .opGet 5 "a.com" "A" none]).memory_cache,
      EntryWf defaultConfig kv.2) ∧
    EntryWf defaultConfig
      (setEntry defaultConfig 0 "a.com" "A" none (.vstr "1.2.3.4")
        (some 999999)) :=
  ⟨by decide,
    (C6_ttl_and_expiry_invariant defaultConfig (by decide)).1
      [.opSet 0 "a.com" "A" (.vstr "1.2.3.4") (some 999999) none,
       .opGet 5 "a.com" "A" none],
    ((C6_ttl_and_expiry_invariant defaultConfig (by decide)).2
      {} 0 "a.com" "A" (.vstr "1.2.3.4") (some 999999) none).2⟩

/-! ## Set/get round-trip, including survival of the fresh entry under
LRU eviction -/

theorem dictHas_iff_mem_keys (m : Store) (k : String) :
    dictHas m k = true ↔ k ∈ m.map Prod.fst := by
  induction m with
  | nil => simp [dictHas, dictGet]
  | cons hd tl ih =>
    by_cases h : hd.1 == k
    · simp only [beq_iff_eq] at h
      simp [dictHas, dictGet_cons, h]
    · simp only [Bool.not_eq_true] at h
      rw [show dictHas (hd :: tl) k = dictHas tl k by
        simp [dictHas, dictGet_cons, h]]
      simp only [beq_eq_false_iff_ne, ne_eq] at h
      simp [ih, h, List.mem_cons]
      intro he
      exact absurd he.symm h

theorem dictSet_not_has (m : Store) (k : String) (e : CacheEntry)
    (h : dictHas m k = false) : dictSet m k e = m ++ [(k, e)] := by
  simp [dictSet, h]

theorem length_dictSet_has (m : Store) (k : String) (e : CacheEntry)
    (h : dictHas m k = true) : (dictSet m k e).length = m.length := by
  simp [dictSet, h]

theorem keys_dictSet_has (m : Store) (k : String) (e : CacheEntry)
    (h : dictHas m k = true) :
    (dictSet m k e).map Prod.fst = m.map Prod.fst := by
  simp only [dictSet, h, if_true, List.map_map]
  refine List.map_congr_left fun kv _ => ?_
  by_cases hb : kv.1 == k
  · simp only [beq_iff_eq] at hb
    simp [Function.comp, hb]
  · simp only [Bool.not_eq_true] at hb
    simp [Function.comp, hb]

theorem keys_dictSet_nodup (m : Store) (k : String) (e : CacheEntry)
    (h : (m.map Prod.fst).Nodup) :
    ((dictSet m k e).map Prod.fst).Nodup := by
  by_cases hh : dictHas m k
  · rw [keys_dictSet_has m k e hh]
    exact h
  · simp only [Bool.not_eq_true] at hh
    rw [dictSet_not_has m k e hh]
    have hk : k ∉ m.map Prod.fst := fun hmem =>
      by simp [(dictHas_iff_mem_keys m k).mpr hmem] at hh
    simp [List.nodup_append, h, hk]

theorem orderedInsert_append_max (a x : String × CacheEntry)
    (l : List (String × CacheEntry)) (h : entryLE a x) :
    List.orderedInsert entryLE a (l ++ [x]) =
      List.orderedInsert entryLE a l ++ [x] := by
  induction l with
  | nil => simp [List.orderedInsert, h]
  | cons b l ih =>
    by_cases hb : entryLE a b
    · simp [List.orderedInsert, hb]
    · simp [List.orderedInsert, hb, ih]

theorem insertionSort_append_max (x : String × CacheEntry)
    (l : List (String × CacheEntry)) (h : ∀ y ∈ l, entryLE y x) :
    List.insertionSort entryLE (l ++ [x]) =
      List.insertionSort entryLE l ++ [x] := by
  induction l with
  | nil => simp [List.insertionSort, List.orderedInsert]
  | cons a l ih =>
    show List.orderedInsert entryLE a (List.insertionSort entryLE (l ++ [x])) =
      List.orderedInsert entryLE a (List.insertionSort entryLE l) ++ [x]
    rw [ih fun y hy => h y (List.mem_cons_of_mem _ hy)]
    exact orderedInsert_append_max a x _ (h a (List.mem_cons_self _ _))

/-- The memory store after a `set` on the memory backend, as an
explicit conditional. -/
theorem setState_memory_cache (cfg : CacheConfig) (st : EngineState)
    (now : Int) (d t : String) (ns : Option String) (v : Value)
    (ttl : Option Int) :
    (setState cfg st now d t ns v ttl).memory_cache =
      if (dictSet st.memory_cache (generateCacheKey d t ns)
          (setEntry cfg now d t ns v ttl)).length > cfg.max_entries then
        (evictLruEntries cfg
          (dictSet st.memory_cache (generateCacheKey d t ns)
            (setEntry cfg now d t ns v ttl))
          st.cache_stats.evictions).1
      else dictSet st.memory_cache (generateCacheKey d t ns)
        (setEntry cfg now d t ns v ttl) := by
  unfold setState
  by_cases hl : (dictSet st.memory_cache (generateCacheKey d t ns)
      (setEntry cfg now d t ns v ttl)).length > cfg.max_entries
  · simp only [hl, if_true]
  · simp only [hl, if_false]

/-- C5: for every valid requested ttl in `[ttl_min, ttl_max]`, `set`
followed by an immediate `get` of the same key (no clock advance)
returns the stored value with a hit — in any reachable state (distinct
keys, size within capacity, no timestamp in the future), even when the
insertion itself triggers LRU eviction. -/
theorem C5_set_get_roundtrip (cfg : CacheConfig) (st : EngineState)
    (now : Int) (d t : String) (ns : Option String) (v : Value) (ttl : Int)
    (httl1 : cfg.ttl_min ≤ ttl) (httl2 : ttl ≤ cfg.ttl_max)
    (hmin : 0 ≤ cfg.ttl_min) (hmax : 2 ≤ cfg.max_entries)
    (hnodup : (st.memory_cache.map Prod.fst).Nodup)
    (hsize : st.memory_cache.length ≤ cfg.max_entries)
    (hts : ∀ kv ∈ st.memory_cache, sortKeyOf kv.2 ≤ now) :
    ∃ st1 st2 : EngineState,
      cacheSet cfg "memory" none st now d t v (some ttl) ns =
        .ok (true, st1) ∧
      cacheGet cfg "memory" none st1 now d t ns = .ok (some v, st2) := by
  set k := generateCacheKey d t ns with hk
  set e := setEntry cfg now d t ns v (some ttl) with he
  have hget : dictGet (setState cfg st now d t ns v (some ttl)).memory_cache
      k = some e := by
    rw [setState_memory_cache]
    by_cases hh : dictHas st.memory_cache k
    · rw [if_neg]
      · exact dictGet_dictSet_self _ _ _
      · rw [length_dictSet_has _ _ _ hh]
        omega
    · simp only [Bool.not_eq_true] at hh
      rw [dictSet_not_has _ _ _ hh]
      by_cases hlen : (st.memory_cache ++ [(k, e)]).length > cfg.max_entries
      · rw [if_pos hlen]
        have hkey : sortKeyOf e = now := by
          rw [he]
          simp [setEntry, sortKeyOf]
        have hmaxle : ∀ y ∈ st.memory_cache, entryLE y (k, e) := by
          intro y hy
          unfold entryLE
          rw [show sortKeyOf (k, e).2 = now from hkey]
          exact hts y hy
        unfold evictLruEntries
        rw [foldl_del_fst, insertionSort_append_max (k, e) _ hmaxle]
        set n := (st.memory_cache ++ [(k, e)]).length -
          9 * cfg.max_entries / 10 with hn
        have hnle : n ≤ (List.insertionSort entryLE st.memory_cache).length := by
          rw [List.length_insertionSort]
          simp only [List.length_append, List.length_singleton] at hlen hn ⊢
          omega
        rw [List.take_append_of_le_length hnle]
        have hnotin : k ∉ (List.map Prod.fst
            (List.take n (List.insertionSort entryLE st.memory_cache))) := by
          intro hmem
          rcases List.mem_map.mp hmem with ⟨u, hu, hufst⟩
          have humem : u ∈ st.memory_cache :=
            (List.mem_insertionSort entryLE).mp (List.mem_of_mem_take hu)
          have hkm : k ∈ st.memory_cache.map Prod.fst :=
            hufst ▸ List.mem_map_of_mem Prod.fst humem
          rw [← dictHas_iff_mem_keys] at hkm
          rw [hkm] at hh
          cases hh
        rw [foldl_dictDel_get _ _ _ hnotin, ← dictSet_not_has _ _ _ hh]
        exact dictGet_dictSet_self _ _ _
      · rw [if_neg hlen, ← dictSet_not_has _ _ _ hh]
        exact dictGet_dictSet_self _ _ _
  have hexp : e.is_expired now = false := by
    rw [he]
    simp [setEntry, CacheEntry.is_expired]
    omega
  refine ⟨setState cfg st now d t ns v (some ttl),
    hitState cfg (setState cfg st now d t ns v (some ttl)) now d t ns e,
    cacheSet_memory cfg st now d t v (some ttl) ns, ?_⟩
  rw [cacheGet_memory_hit cfg (setState cfg st now d t ns v (some ttl))
    now d t ns e hget hexp]
  rfl

theorem C5_set_get_roundtrip_witness :
    defaultConfig.ttl_min ≤ (300 : Int) ∧
    (300 : Int) ≤ defaultConfig.ttl_max ∧
    (0 : Int) ≤ defaultConfig.ttl_min ∧
    2 ≤ defaultConfig.max_entries ∧
    ((({} : EngineState).memory_cache.map Prod.fst).Nodup) ∧
    (({} : EngineState).memory_cache.length ≤ defaultConfig.max_entries) ∧
    (∀ kv ∈ ({} : EngineState).memory_cache, sortKeyOf kv.2 ≤ (0 : Int)) ∧
    ∃ st1 st2 : EngineState,
      cacheSet defaultConfig "memory" none {} 0 "a.com" "A"
        (.vstr "1.2.3.4") (some 300) none = .ok (true, st1) ∧
      cacheGet defaultConfig "memory" none st1 0 "a.com" "A" none =
        .ok (some (.vstr "1.2.3.4"), st2) :=
  ⟨by decide, by decide, by decide, by decide, List.nodup_nil, by decide,
    fun kv hkv => absurd hkv (List.not_mem_nil kv),
    C5_set_get_roundtrip defaultConfig {} 0 "a.com" "A" none
      (.vstr "1.2.3.4") 300 (by decide) (by decide) (by decide) (by decide)
      List.nodup_nil (by decide)
      (fun kv hkv => absurd hkv (List.not_mem_nil kv))⟩


/-! ## LRU eviction: size target, counter increments, eviction order -/

theorem dictDel_eq_of_not_mem (m : Store) (k : String)
    (h : k ∉ m.map Prod.fst) : dictDel m k = m := by
  induction m with
  | nil => rfl
  | cons hd tl ih =>
    simp only [List.map_cons, List.mem_cons, not_or] at h
    rw [dictDel_cons]
    have hb : (hd.1 == k) = false := by
      simp
      exact fun he => h.1 he.symm
    rw [hb]
    simp [ih h.2]

theorem keys_dictDel (m : Store) (k : String) :
    (dictDel m k).map Prod.fst =
      (m.map Prod.fst).filter (fun x => !(x == k)) := by
  induction m with
  | nil => rfl
  | cons hd tl ih =>
    rw [dictDel_cons]
    by_cases hb : hd.1 == k
    · simp only [hb, if_true, List.map_cons, List.filter_cons]
      simp only [hb, Bool.not_true, Bool.false_eq_true, if_false]
      exact ih
    · simp only [Bool.not_eq_true] at hb
      simp only [hb, Bool.false_eq_true, if_false, List.map_cons,
        List.filter_cons, Bool.not_false, if_true]
      rw [ih]

theorem length_dictDel_mem (m : Store) (k : String)
    (hm : (m.map Prod.fst).Nodup) (hk : k ∈ m.map Prod.fst) :
    (dictDel m k).length + 1 = m.length := by
  induction m with
  | nil => cases hk
  | cons hd tl ih =>
    simp only [List.map_cons, List.nodup_cons] at hm
    rw [dictDel_cons]
    by_cases hb : hd.1 == k
    · simp only [beq_iff_eq] at hb
      rw [if_pos (by simp [hb])]
      rw [dictDel_eq_of_not_mem tl k (hb ▸ hm.1)]
      simp
    · simp only [Bool.not_eq_true] at hb
      rw [hb]
      simp only [Bool.false_eq_true, if_false, List.length_cons]
      have hkne : hd.1 ≠ k := by
        intro he
        simp [he] at hb
      have hktl : k ∈ tl.map Prod.fst := by
        rcases List.mem_cons.mp hk with h1 | h2
        · exact absurd h1.symm hkne
        · exact h2
      have := ih hm.2 hktl
      omega

theorem foldl_dictDel_length (ks : List String) (m : Store)
    (hm : (m.map Prod.fst).Nodup) (hks : ks.Nodup)
    (hsub : ∀ k ∈ ks, k ∈ m.map Prod.fst) :
    (ks.foldl dictDel m).length + ks.length = m.length := by
  induction ks generalizing m with
  | nil => simp
  | cons k ks ih =>
    simp only [List.foldl, List.length_cons]
    have hkm : k ∈ m.map Prod.fst := hsub k (List.mem_cons_self _ _)
    have hnodups := List.nodup_cons.mp hks
    have hm' : ((dictDel m k).map Prod.fst).Nodup := by
      rw [keys_dictDel]
      exact hm.filter _
    have hsub' : ∀ k' ∈ ks, k' ∈ (dictDel m k).map Prod.fst := by
      intro k' hk'
      rw [keys_dictDel, List.mem_filter]
      refine ⟨hsub k' (List.mem_cons_of_mem _ hk'), ?_⟩
      simp
      intro he
      exact hnodups.1 (he ▸ hk')
    have h1 := ih (dictDel m k) hm' hnodups.2 hsub'
    have h2 := length_dictDel_mem m k hm hkm
    omega

theorem foldl_dictDel_filter (ks : List String) (m : Store) :
    ks.foldl dictDel m = m.filter fun kv => !(decide (kv.1 ∈ ks)) := by
  induction ks generalizing m with
  | nil => simp
  | cons k ks ih =>
    simp only [List.foldl]
    rw [ih (dictDel m k)]
    unfold dictDel
    rw [List.filter_filter]
    refine List.filter_congr fun kv _ => ?_
    by_cases h1 : kv.1 = k <;> by_cases h2 : kv.1 ∈ ks <;>
      simp [h1, h2, List.mem_cons]

theorem eq_of_mem_keys_nodup (m : Store) (a b : String × CacheEntry)
    (hm : (m.map Prod.fst).Nodup) (ha : a ∈ m) (hb : b ∈ m)
    (hab : a.1 = b.1) : a = b := by
  induction m with
  | nil => cases ha
  | cons hd tl ih =>
    simp only [List.map_cons, List.nodup_cons] at hm
    rcases List.mem_cons.mp ha with ha1 | ha2 <;>
      rcases List.mem_cons.mp hb with hb1 | hb2
    · rw [ha1, hb1]
    · exfalso
      apply hm.1
      rw [ha1] at hab
      exact hab ▸ List.mem_map_of_mem Prod.fst hb2
    · exfalso
      apply hm.1
      rw [hb1] at hab
      exact hab ▸ List.mem_map_of_mem Prod.fst ha2
    · exact ih hm.2 ha2 hb2

/-- Size after eviction: removing `len - target` of the oldest keys
leaves exactly `target` entries (when eviction was triggered). -/
theorem evict_length (cfg : CacheConfig) (m : Store) (ev : Nat)
    (hnodup : (m.map Prod.fst).Nodup)
    (htrig : m.length > cfg.max_entries) :
    (evictLruEntries cfg m ev).1.length = 9 * cfg.max_entries / 10 := by
  unfold evictLruEntries
  rw [foldl_del_fst]
  set sorted := List.insertionSort entryLE m with hsorted
  set n := m.length - 9 * cfg.max_entries / 10 with hn
  set ks := (sorted.take n).map Prod.fst with hks
  have hperm : (sorted.map Prod.fst).Perm (m.map Prod.fst) :=
    (List.perm_insertionSort entryLE m).map Prod.fst
  have hsortednodup : (sorted.map Prod.fst).Nodup :=
    hperm.nodup_iff.mpr hnodup
  have hksnodup : ks.Nodup := by
    rw [hks, List.map_take]
    exact hsortednodup.sublist (List.take_sublist _ _)
  have hsub : ∀ k ∈ ks, k ∈ m.map Prod.fst := by
    intro k hk
    rw [hks, List.map_take] at hk
    exact hperm.mem_iff.mp (List.mem_of_mem_take hk)
  have hlen := foldl_dictDel_length ks m hnodup hksnodup hsub
  have hkslen : ks.length = n := by
    rw [hks, List.length_map, List.length_take, hsorted,
      List.length_insertionSort]
    omega
  have htm : 9 * cfg.max_entries / 10 ≤ cfg.max_entries := by omega
  omega

/-- Counter after eviction: exactly one increment per removed entry,
`len - target` in total. -/
theorem evict_counter (cfg : CacheConfig) (m : Store) (ev : Nat) :
    (evictLruEntries cfg m ev).2 =
      ev + (m.length - 9 * cfg.max_entries / 10) := by
  unfold evictLruEntries
  rw [foldl_del_snd]
  simp [List.length_map, List.length_take, List.length_insertionSort]

/-- Eviction order: every evicted entry is at least as old (by
`last_accessed`, falling back to `created_at`) as every kept entry. -/
theorem evict_order (cfg : CacheConfig) (m : Store) (ev : Nat)
    (hnodup : (m.map Prod.fst).Nodup) :
    ∀ kv ∈ m, kv ∉ (evictLruEntries cfg m ev).1 →
      ∀ kv' ∈ (evictLruEntries cfg m ev).1,
        sortKeyOf kv.2 ≤ sortKeyOf kv'.2 := by
  intro kv hkv hnotin kv' hkv'
  have hres : (evictLruEntries cfg m ev).1 =
      m.filter fun p => !(decide (p.1 ∈
        ((List.insertionSort entryLE m).take
          (m.length - 9 * cfg.max_entries / 10)).map Prod.fst)) := by
    unfold evictLruEntries
    rw [foldl_del_fst, foldl_dictDel_filter]
  set sorted := List.insertionSort entryLE m with hsorted
  set n := m.length - 9 * cfg.max_entries / 10 with hn
  set ks := (sorted.take n).map Prod.fst with hks
  rw [hres] at hnotin hkv'
  have hkv'm : kv' ∈ m := List.mem_of_mem_filter hkv'
  have hkv'ks : kv'.1 ∉ ks := by
    have := (List.mem_filter.mp hkv').2
    simpa using this
  have hkvks : kv.1 ∈ ks := by
    by_contra hc
    exact hnotin (List.mem_filter.mpr ⟨hkv, by simpa using hc⟩)
  have hkvtake : kv ∈ sorted.take n := by
    rcases List.mem_map.mp hkvks with ⟨u, hu, hufst⟩
    have hum : u ∈ m :=
      (List.mem_insertionSort entryLE).mp (List.mem_of_mem_take hu)
    have : u = kv := eq_of_mem_keys_nodup m u kv hnodup hum hkv hufst
    exact this ▸ hu
  have hkv'drop : kv' ∈ sorted.drop n := by
    have hkv'sorted : kv' ∈ sorted :=
      (List.mem_insertionSort entryLE).mpr hkv'm
    rcases List.mem_append.mp
        ((List.take_append_drop n sorted) ▸ hkv'sorted) with h1 | h2
    · exact absurd (List.mem_map_of_mem Prod.fst h1) hkv'ks
    · exact h2
  have hsortedp : List.Pairwise entryLE sorted :=
    List.sorted_insertionSort entryLE m
  have hsplit := hsortedp
  rw [← List.take_append_drop n sorted, List.pairwise_append] at hsplit
  exact hsplit.2.2 kv hkvtake kv' hkv'drop

/-- C7: whenever an insertion pushes the store past `max_entries`,
eviction removes the entries with the oldest access time (falling back
to creation time; the sort is the same stable sort Python uses) until
the size equals `floor(max_entries * 0.9)`, incrementing the eviction
counter once per removal; kept entries are never older than evicted
ones. -/
theorem C7_lru_eviction (cfg : CacheConfig) (m : Store) (ev : Nat)
    (hnodup : (m.map Prod.fst).Nodup) :
    ((m.length > cfg.max_entries →
      (evictLruEntries cfg m ev).1.length = 9 * cfg.max_entries / 10) ∧
     (evictLruEntries cfg m ev).2 =
       ev + (m.length - 9 * cfg.max_entries / 10) ∧
     (∀ kv ∈ m, kv ∉ (evictLruEntries cfg m ev).1 →
       ∀ kv' ∈ (evictLruEntries cfg m ev).1,
         sortKeyOf kv.2 ≤ sortKeyOf kv'.2)) ∧
    (∀ (st : EngineState) (now : Int) (d t : String) (ns : Option String)
      (v : Value) (ttl : Option Int),
      (st.memory_cache.map Prod.fst).Nodup →
      (dictSet st.memory_cache (generateCacheKey d t ns)
        (setEntry cfg now d t ns v ttl)).length > cfg.max_entries →
      (setState cfg st now d t ns v ttl).memory_cache.length =
        9 * cfg.max_entries / 10 ∧
      (setState cfg st now d t ns v ttl).cache_stats.evictions =
        st.cache_stats.evictions +
          ((dictSet st.memory_cache (generateCacheKey d t ns)
            (setEntry cfg now d t ns v ttl)).length -
              9 * cfg.max_entries / 10)) := by
  refine ⟨⟨evict_length cfg m ev hnodup, evict_counter cfg m ev,
    evict_order cfg m ev hnodup⟩, ?_⟩
  intro st now d t ns v ttl hnodupS htrig
  have hnodupSet := keys_dictSet_nodup st.memory_cache
    (generateCacheKey d t ns) (setEntry cfg now d t ns v ttl) hnodupS
  constructor
  · rw [setState_memory_cache, if_pos htrig]
    exact evict_length cfg _ _ hnodupSet htrig
  · have hstats : (setState cfg st now d t ns v ttl).cache_stats.evictions =
        (evictLruEntries cfg
          (dictSet st.memory_cache (generateCacheKey d t ns)
            (setEntry cfg now d t ns v ttl))
          st.cache_stats.evictions).2 := by
      unfold setState
      simp only [htrig, if_true]
    rw [hstats, evict_counter]


/-- A 6-entry store with distinct plain keys and increasing access
times, over capacity for `max_entries = 5`. -/
def c7store : Store :=
  [("k1", { key := "k1", value := .vnone, created_at := 0,
            expires_at := 100, last_accessed := some 1 }),
   ("k2", { key := "k2", value := .vnone, created_at := 0,
            expires_at := 100, last_accessed := some 2 }),
   ("k3", { key := "k3", value := .vnone, created_at := 0,
            expires_at := 100, last_accessed := some 3 }),
   ("k4", { key := "k4", value := .vnone, created_at := 0,
            expires_at := 100, last_accessed := some 4 }),
   ("k5", { key := "k5", value := .vnone, created_at := 0,
            expires_at := 100, last_accessed := some 5 }),
   ("k6", { key := "k6", value := .vnone, created_at := 0,
            expires_at := 100, last_accessed := some 6 })]

def c7cfg : CacheConfig := { max_entries := 5 }

theorem C7_lru_eviction_witness :
    ((c7store.map Prod.fst).Nodup) ∧
    (((c7store.length > c7cfg.max_entries →
      (evictLruEntries c7cfg c7store 0).1.length =
        9 * c7cfg.max_entries / 10) ∧
     (evictLruEntries c7cfg c7store 0).2 =
       0 + (c7store.length - 9 * c7cfg.max_entries / 10) ∧
     (∀ kv ∈ c7store, kv ∉ (evictLruEntries c7cfg c7store 0).1 →
       ∀ kv' ∈ (evictLruEntries c7cfg c7store 0).1,
         sortKeyOf kv.2 ≤ sortKeyOf kv'.2)) ∧
    (∀ (st : EngineState) (now : Int) (d t : String) (ns : Option String)
      (v : Value) (ttl : Option Int),
      (st.memory_cache.map Prod.fst).Nodup →
      (dictSet st.memory_cache (generateCacheKey d t ns)
        (setEntry c7cfg now d t ns v ttl)).length > c7cfg.max_entries →
      (setState c7cfg st now d t ns v ttl).memory_cache.length =
        9 * c7cfg.max_entries / 10 ∧
      (setState c7cfg st now d t ns v ttl).cache_stats.evictions =
        st.cache_stats.evictions +
          ((dictSet st.memory_cache (generateCacheKey d t ns)
            (setEntry c7cfg now d t ns v ttl)).length -
              9 * c7cfg.max_entries / 10))) :=
  ⟨by decide, C7_lru_eviction c7cfg c7store 0 (by decide)⟩


end DnsCache
